import Mathlib

/-!
Verification of the feed validation and analysis engine of `feed-analyzer`
(`src/app/api/analyze/route.ts`, extended variant).

The engine is embedded shallowly:

* Raw text is `String` / `List Char`; the ad-hoc regular-expression matching
  of the source (`match`, `matchAll` with patterns of the shape
  `lit[^>]*>`, `lit[^>]*>([\s\S]*?)close`, `url=["']([^"']+)["']`,
  `<img[^>]+src=["']([^"']+)["']`) is implemented as executable scanners with
  JavaScript first-match / greedy-backtracking semantics.
* The external feed parser (`rss-parser`) is an input: analysis functions take
  a `ParsedFeed` value directly, mirroring the shape the engine reads from it.
* JavaScript `Date` parsing and `toLocaleString` formatting are external
  capabilities, passed in as functions `parseDate : String → Option Int`
  (epoch milliseconds, `none` for `NaN`) and `fmt : Int → String`.
* Floating-point day arithmetic is idealized over `ℚ`; `Math.round` on the
  positive values that occur is `⌊q + 1/2⌋`.
* JavaScript truthiness of optional string fields (`undefined`/`""` falsy) is
  modelled by `truthy`.
-/

namespace FeedAnalyzer

/-- JS truthiness of an optional string: `undefined`/`null`/`""` are falsy. -/
def truthy : Option String → Bool
  | none => false
  | some s => s ≠ ""

/-- The string carried by an optional field (empty when absent). -/
def getStr : Option String → String
  | none => ""
  | some s => s

/-! ### Regular-expression scanners used by the source -/

/-- Case-insensitive prefix test (the `/i` flag). -/
def isPrefixCI : List Char → List Char → Bool
  | [], _ => true
  | _ :: _, [] => false
  | p :: ps, c :: cs => p.toLower = c.toLower && isPrefixCI ps cs

/-- Split at the first occurrence of `pat` (case-insensitive when `ci`):
returns `(before, from)` with `l = before ++ from` and `pat` a prefix of
`from`. `none` when `pat` does not occur. -/
def splitAtFirst (ci : Bool) (pat : List Char) : List Char → Option (List Char × List Char)
  | [] => if pat.isEmpty then some ([], []) else none
  | c :: rest =>
    if (if ci then isPrefixCI pat (c :: rest) else pat.isPrefixOf (c :: rest)) then
      some ([], c :: rest)
    else
      match splitAtFirst ci pat rest with
      | some (b, f) => some (c :: b, f)
      | none => none

/-- JS `String.prototype.includes` (case-sensitive). -/
def containsL (l pat : List Char) : Bool := (splitAtFirst false pat l).isSome

/-- JS `String.prototype.includes` on `String`. -/
def containsStr (s pat : String) : Bool := containsL s.toList pat.toList

/-- First match of `/lit[^>]*>/i`: returns `(matchedText, after)`.  At the
first case-insensitive occurrence of `lit` the greedy `[^>]*` consumes up to
the first `>`; if no `>` follows anywhere, no later start can succeed either. -/
def matchOpenTag (lit : List Char) (l : List Char) : Option (List Char × List Char) :=
  match splitAtFirst true lit l with
  | none => none
  | some (_, f) =>
    let litOrig := f.take lit.length
    let rest := f.drop lit.length
    match splitAtFirst false ['>'] rest with
    | none => none
    | some (mid, f2) => some (litOrig ++ mid ++ ['>'], f2.drop 1)

/-- Whether `/lit[^>]*>/i` matches somewhere in `l`. -/
def hasOpenTag (lit : List Char) (l : List Char) : Bool := (matchOpenTag lit l).isSome

/-- First match of `/openLit[^>]*>([\s\S]*?)closeLit/i`: returns
`(captureBody, after)`.  The lazy body runs to the first occurrence of the
closing literal; failure at the first open candidate implies global failure. -/
def matchTagBody (openLit closeLit : List Char) (l : List Char) :
    Option (List Char × List Char) :=
  match matchOpenTag openLit l with
  | none => none
  | some (_, rest) =>
    match splitAtFirst true closeLit rest with
    | none => none
    | some (body, f) => some (body, f.drop closeLit.length)

/-- `matchAll` for `/openLit[^>]*>([\s\S]*?)closeLit/gi`: the capture bodies in
order.  `fuel` bounds the iteration (each match consumes at least one char);
callers pass `l.length + 1`. -/
def matchAllTagBody (openLit closeLit : List Char) : Nat → List Char → List (List Char)
  | 0, _ => []
  | fuel + 1, l =>
    match matchTagBody openLit closeLit l with
    | none => []
    | some (body, after) => body :: matchAllTagBody openLit closeLit fuel after

/-- `matchAll` for `/lit[^>]*>/gi`: the matched texts in order. -/
def matchAllOpenTag (lit : List Char) : Nat → List Char → List (List Char)
  | 0, _ => []
  | fuel + 1, l =>
    match matchOpenTag lit l with
    | none => []
    | some (txt, after) => txt :: matchAllOpenTag lit fuel after

/-- JS `String.prototype.trim` on the character list. -/
def trimL (l : List Char) : List Char :=
  ((l.dropWhile Char.isWhitespace).reverse.dropWhile Char.isWhitespace).reverse

/-! ### Structural validator (`validateFeedXML`) -/

structure ValidationOutcome where
  isValid : Bool
  errors : List String
deriving Repr, DecidableEq

/-- `<title>` rules on the channel content (RSS 2.0 requires a non-empty title). -/
def titleErrs (cc : List Char) : List String :=
  match matchTagBody "<title".toList "</title>".toList cc with
  | none => ["RSS feed missing required <title> element in <channel>"]
  | some (body, _) =>
    if (trimL body).isEmpty then
      ["RSS feed <title> element in <channel> is empty"]
    else []

/-- `<link>` rule on the channel content. -/
def linkErrs (cc : List Char) : List String :=
  if hasOpenTag "<link".toList cc then []
  else ["RSS feed missing required <link> element in <channel>"]

/-- Item rules: at least one `<item>`, and each item needs a `<title>` or a
`<description>`; each failing item yields its own numbered violation. -/
def itemErrs (xml : List Char) : List String :=
  if ¬ hasOpenTag "<item".toList xml then
    ["RSS feed should contain at least one <item> element"]
  else
    let bodies := matchAllTagBody "<item".toList "</item>".toList (xml.length + 1) xml
    bodies.enum.filterMap fun bi =>
      if hasOpenTag "<title".toList bi.2 || hasOpenTag "<description".toList bi.2 then none
      else
        let k := bi.1 + 1
        some s!"RSS item #{k} missing required <title> or <description> element"

/-- RSS-family rules, in source push order. -/
def rssFamilyErrors (xml : List Char) : List String :=
  let versionErrs :=
    match matchOpenTag "<rss".toList xml with
    | some (txt, _) =>
      if containsL txt "version=".toList then []
      else ["RSS feed should declare version attribute (e.g., version=\"2.0\")"]
    | none => []
  let hasChannel := containsL xml "<channel>".toList || containsL xml "<channel ".toList
  let channelErrs :=
    if hasChannel then [] else ["RSS feed missing required <channel> element"]
  let innerErrs :=
    match matchTagBody "<channel".toList "</channel>".toList xml with
    | some (channelContent, _) =>
      titleErrs channelContent ++ linkErrs channelContent ++ itemErrs xml
    | none =>
      if hasChannel then ["RSS feed has <channel> tag but content could not be parsed"]
      else []
  versionErrs ++ channelErrs ++ innerErrs

/-- Atom rules. -/
def atomErrors (xml : List Char) : List String :=
  (if hasOpenTag "<title".toList xml then []
   else ["Atom feed missing required <title> element in <feed>"]) ++
  (if hasOpenTag "<id".toList xml then []
   else ["Atom feed missing required <id> element in <feed>"]) ++
  (if hasOpenTag "<updated".toList xml then []
   else ["Atom feed missing required <updated> element in <feed>"]) ++
  (if hasOpenTag "<entry".toList xml then []
   else ["Atom feed should contain at least one <entry> element"])

/-- The Atom namespace marker the source tests for. -/
def atomNs : String := "xmlns=\"http://www.w3.org/2005/Atom\""

/-- Family-independent rule: `filesize=` attribute on `<media:content>` tags. -/
def filesizeErrors (xml : List Char) : List String :=
  let ms := matchAllOpenTag "<media:content".toList (xml.length + 1) xml
  let n := (ms.filter fun t => containsL t "filesize=".toList).length
  if n > 0 then
    let plural := if n > 1 then "s" else ""
    [s!"Unexpected filesize attribute on media:content element ({n} occurrence{plural})"]
  else []

/-- The violations accumulated past the gate: family rules, then the
family-independent `filesize` rule, in source push order. -/
def validateErrors (xml : List Char) : List String :=
  (if containsL xml "<rss".toList || containsL xml "<channel>".toList then
    rssFamilyErrors xml
  else if containsL xml "<feed".toList && containsL xml atomNs.toList then
    atomErrors xml
  else
    ["Feed does not appear to be a valid RSS 2.0 or Atom feed"]) ++
  filesizeErrors xml

/-- `validateFeedXML` (lines 12–121 of the source).  The open/close tag counts
the source computes at lines 112–113 are never used and are not modelled.  The
final outcome is `{ isValid := errors.length == 0, errors }`. -/
def validateFeedXML (xmlContent : String) : ValidationOutcome :=
  if ¬ ("<?xml".toList.isPrefixOf (trimL xmlContent.toList) ||
        "<rss".toList.isPrefixOf (trimL xmlContent.toList) ||
        "<feed".toList.isPrefixOf (trimL xmlContent.toList)) then
    { isValid := false, errors := ["Feed does not appear to be valid XML"] }
  else
    { isValid := (validateErrors xmlContent.toList).length == 0,
      errors := validateErrors xmlContent.toList }

/-- The `catch` path of `validateFeedXML`: an internal error with message
`msg`, raised after `errs` had accumulated, is captured as one violation and
the outcome is returned invalid. -/
def validateFeedXMLCatch (errs : List String) (msg : String) : ValidationOutcome :=
  { isValid := false, errors := errs ++ [s!"XML validation error: {msg}"] }

/-! ### Parsed feed data model (the shape the engine reads from `rss-parser`) -/

structure Enclosure where
  url : Option String := none
  type : Option String := none
deriving Repr, DecidableEq

/-- A custom-field value surfaced by the parser: either a structured object
(with an optional `url` attribute) or a raw string. -/
inductive MediaVal where
  | obj (url : Option String)
  | str (s : String)
deriving Repr, DecidableEq

/-- JS truthiness of an optional media value: objects are truthy, strings are
truthy when non-empty. -/
def mediaTruthy : Option MediaVal → Bool
  | none => false
  | some (.obj _) => true
  | some (.str s) => s ≠ ""

structure FeedItem where
  title : Option String := none
  link : Option String := none
  content : Option String := none
  contentSnippet : Option String := none
  description : Option String := none
  categories : List String := []
  pubDate : Option String := none
  creator : Option String := none
  author : Option String := none
  guid : Option String := none
  enclosure : Option Enclosure := none
  mediaContent : Option MediaVal := none
  mediaThumbnail : Option MediaVal := none
  contentEncoded : Option String := none
  image : Option String := none
deriving Repr, DecidableEq

structure ParsedFeed where
  title : Option String := none
  link : Option String := none
  description : Option String := none
  categories : List String := []
  items : List FeedItem := []
deriving Repr, DecidableEq

/-! ### Content classifier -/

/-- Drop chars up to and including the first `>`; `none` when there is none. -/
def dropThroughGt : List Char → Option (List Char)
  | [] => none
  | c :: rest => if c = '>' then some rest else dropThroughGt rest

/-- `content.replace(/<[^>]*>/g, '')`, fuel-indexed: each `<`…`>` run is
removed; a `<` with no later `>` is kept verbatim.  Every step consumes at
least one character, so fuel `l.length` suffices. -/
def stripTagsF : Nat → List Char → List Char
  | _, [] => []
  | 0, l => l
  | fuel + 1, c :: rest =>
    if c = '<' then
      match dropThroughGt rest with
      | some after => stripTagsF fuel after
      | none => c :: stripTagsF fuel rest
    else c :: stripTagsF fuel rest

/-- `content.replace(/<[^>]*>/g, '')`. -/
def stripTags (l : List Char) : List Char := stripTagsF l.length l

/-- The `contentEncoded || content || description || ''` chain (JS `||`:
empty strings fall through). -/
def pickContent (it : FeedItem) : String :=
  if truthy it.contentEncoded then getStr it.contentEncoded
  else if truthy it.content then getStr it.content
  else if truthy it.description then getStr it.description
  else ""

inductive CType where
  | full
  | excerpt
  | unknown
deriving Repr, DecidableEq

/-- Content-type heuristic over the first item (lines 286–304). -/
def contentTypeOf (items : List FeedItem) : CType :=
  match items with
  | [] => .unknown
  | firstItem :: _ =>
    let contentLength := (stripTags (pickContent firstItem).toList).length
    if contentLength > 500 then .full
    else if contentLength > 0 then .excerpt
    else .unknown

/-! ### Temporal analyzer -/

/-- The parsed date of an item: the pubDate must be truthy and parse
(`new Date(s)` not `NaN`), where `pd` is the external date parser (epoch ms). -/
def itemDate (pd : String → Option Int) (it : FeedItem) : Option Int :=
  if truthy it.pubDate then pd (getStr it.pubDate) else none

/-- All parsable item dates, in item order. -/
def collectDates (pd : String → Option Int) (items : List FeedItem) : List Int :=
  items.filterMap (itemDate pd)

/-- The running-maximum fold of the source (lines 308–318). -/
def latestDate (pd : String → Option Int) (items : List FeedItem) : Option Int :=
  items.foldl
    (fun acc it =>
      match itemDate pd it with
      | some d =>
        match acc with
        | none => some d
        | some m => if d > m then some d else some m
      | none => acc)
    none

/-- `lastUpdate` (lines 306–334): format the latest parsable date with the
external formatter `fmt`; if none parses, fall back to the *first* item's raw
pubDate when truthy; otherwise `null`. -/
def lastUpdate (pd : String → Option Int) (fmt : Int → String)
    (items : List FeedItem) : Option String :=
  match items with
  | [] => none
  | firstItem :: _ =>
    match latestDate pd items with
    | some d => some (fmt d)
    | none => if truthy firstItem.pubDate then some (getStr firstItem.pubDate) else none

/-- Milliseconds per day (`1000 * 60 * 60 * 24`). -/
def msPerDay : Int := 1000 * 60 * 60 * 24

/-- `Math.round` on the positive rationals supplied in this code path. -/
def jsRound (q : ℚ) : Int := ⌊q + 1 / 2⌋

/-- Sorting ascending (`dates.sort((a, b) => a.getTime() - b.getTime())`). -/
def sortDates (dates : List Int) : List Int := dates.insertionSort (· ≤ ·)

/-- The frequency label for an average inter-post interval of `avg` days
(lines 373–398, the else-if cascade of the source). -/
def freqLabel (avg : ℚ) : String :=
  if avg < 1 / 10 then "Multiple posts per day"
  else if avg < 1 then
    let perDay := jsRound (1 / avg)
    if perDay = 1 then "1 post per day" else s!"{perDay} posts per day"
  else if avg < 7 then
    let perWeek := jsRound (7 / avg)
    if perWeek = 1 then "1 post per week" else s!"{perWeek} posts per week"
  else if avg < 30 then
    let perMonth := jsRound (30 / avg)
    if perMonth = 1 then "1 post per month" else s!"{perMonth} posts per month"
  else "Less than 1 post per month"

/-- `postFrequency` (lines 355–400). -/
def postFrequency (pd : String → Option Int) (items : List FeedItem) : Option String :=
  if items.length > 1 then
    let dates := collectDates pd items
    if dates.length > 1 then
      let sorted := sortDates dates
      let timeDiff : Int := sorted.getLast?.getD 0 - sorted.head?.getD 0
      let daysDiff : ℚ := (timeDiff : ℚ) / (msPerDay : ℚ)
      let avg : ℚ := daysDiff / ((dates.length : ℚ) - 1)
      some (freqLabel avg)
    else none
  else none

/-! ### Duplicate detector and missing fields -/

/-- The identity key of an item: `item.guid || item.link || ''`. -/
def itemKey (it : FeedItem) : String :=
  if truthy it.guid then getStr it.guid
  else if truthy it.link then getStr it.link
  else ""

/-- Ordered-set insertion (JS `Map`/`Set` iterate in insertion order). -/
def insertOnce (l : List String) (s : String) : List String :=
  if s ∈ l then l else l ++ [s]

/-- First-seen-order deduplication of a key list. -/
def firstSeen (l : List String) : List String := l.foldl insertOnce []

/-- `duplicateGuids` (lines 402–417): non-empty keys occurring more than once,
in first-insertion order. -/
def duplicateGuids (items : List FeedItem) : List String :=
  let keys := (items.map itemKey).filter (· ≠ "")
  (firstSeen keys).filter fun k => keys.count k > 1

/-- `missingFields` (lines 419–426), from the first item only. -/
def missingFields (items : List FeedItem) : List String :=
  match items with
  | [] => []
  | it :: _ =>
    (if truthy it.title then [] else ["title"]) ++
    (if truthy it.link then [] else ["link"]) ++
    (if ¬ truthy it.description && ¬ truthy it.content then ["description"] else [])

/-! ### Featured-image flag (lines 241–284) -/

/-- Whether the enclosure is image-typed (`enclosure.type?.startsWith('image/')`). -/
def encImage (it : FeedItem) : Bool :=
  match it.enclosure with
  | some e => (match e.type with | some t => "image/".toList.isPrefixOf t.toList | none => false)
  | none => false

/-- The per-item featured-image test: media:content, media:thumbnail,
image-typed enclosure, image field, `<img` in description, `<img` in
content:encoded.  The plain `content` field is *not* inspected here. -/
def itemHasFeatured (it : FeedItem) : Bool :=
  mediaTruthy it.mediaContent ||
  mediaTruthy it.mediaThumbnail ||
  encImage it ||
  truthy it.image ||
  (truthy it.description && containsStr (getStr it.description) "<img") ||
  (truthy it.contentEncoded && containsStr (getStr it.contentEncoded) "<img")

/-- The short-circuiting loop over items. -/
def hasFeaturedImage (items : List FeedItem) : Bool := items.any itemHasFeatured

/-! ### Image source analyzer (lines 428–516) -/

structure ImageSources where
  mediaContent : Nat := 0
  mediaThumbnail : Nat := 0
  enclosure : Nat := 0
  imgTag : Nat := 0
  openGraph : Nat := 0
deriving Repr, DecidableEq

/-- First match of `/url=["']([^"']+)["']/i` starting at the head of `l`:
after `url=` a quote must follow, the greedy `[^"']+` runs to the next quote,
and that closing quote must exist. -/
def tryUrlHere (l : List Char) : Option (List Char) :=
  if isPrefixCI "url=".toList l then
    match l.drop 4 with
    | [] => none
    | q :: r2 =>
      if q = Char.ofNat 34 ∨ q = Char.ofNat 39 then
        let cap := r2.takeWhile fun c => c ≠ Char.ofNat 34 ∧ c ≠ Char.ofNat 39
        if cap.length ≥ 1 ∧ cap.length < r2.length then some cap else none
      else none
  else none

/-- First match of `/url=["']([^"']+)["']/i` anywhere in `l` (the regex engine
tries successive start positions). -/
def matchUrlAttr : List Char → Option (List Char)
  | [] => none
  | c :: rest =>
    match tryUrlHere (c :: rest) with
    | some cap => some cap
    | none => matchUrlAttr rest

/-- `src=["']([^"']+)["']` at the head of `l` (case-insensitive `src=`). -/
def trySrcAt (l : List Char) : Option (List Char) :=
  if isPrefixCI "src=".toList l then
    match l.drop 4 with
    | [] => none
    | q :: r2 =>
      if q = Char.ofNat 34 ∨ q = Char.ofNat 39 then
        let cap := r2.takeWhile fun c => c ≠ Char.ofNat 34 ∧ c ≠ Char.ofNat 39
        if cap.length ≥ 1 ∧ cap.length < r2.length then some cap else none
      else none
  else none

/-- Backtracking over the greedy `[^>]+` of `/<img[^>]+src=.../i`: try the
split lengths `k, k-1, …, 1`. -/
def tryImgLengths (r : List Char) : Nat → Option (List Char)
  | 0 => none
  | k + 1 =>
    match trySrcAt (r.drop (k + 1)) with
    | some cap => some cap
    | none => tryImgLengths r k

/-- `/<img[^>]+src=["']([^"']+)["']/i` at the head of `l`. -/
def tryImgHere (l : List Char) : Option (List Char) :=
  if isPrefixCI "<img".toList l then
    let r := l.drop 4
    tryImgLengths r (r.takeWhile (· ≠ '>')).length
  else none

/-- First match of `/<img[^>]+src=["']([^"']+)["']/i` anywhere in `l`. -/
def matchImgSrc : List Char → Option (List Char)
  | [] => none
  | c :: rest =>
    match tryImgHere (c :: rest) with
    | some cap => some cap
    | none => matchImgSrc rest

/-- Raw-text `media:thumbnail` pre-pass (lines 438–448): seeds the counter
with the occurrence count and pushes every extracted URL *without*
deduplication. -/
def rawThumbPrepass (xml : List Char) : ImageSources × List String :=
  let ms := matchAllOpenTag "<media:thumbnail".toList (xml.length + 1) xml
  if ms.length > 0 then
    ({ mediaThumbnail := ms.length },
     ms.filterMap fun t => (matchUrlAttr t).map fun cap => String.mk cap)
  else ({}, [])

/-- Per-item media:content check (lines 452–462): counts, and pushes the URL
*without* deduplication. -/
def stepMediaContent (acc : ImageSources × List String) (it : FeedItem) :
    ImageSources × List String :=
  if mediaTruthy it.mediaContent then
    let s := { acc.1 with mediaContent := acc.1.mediaContent + 1 }
    match it.mediaContent with
    | some (.obj u) => if truthy u then (s, acc.2 ++ [getStr u]) else (s, acc.2)
    | some (.str str) =>
      match matchUrlAttr str.toList with
      | some cap => (s, acc.2 ++ [String.mk cap])
      | none => (s, acc.2)
    | none => (s, acc.2)
  else acc

/-- Per-item media:thumbnail check (lines 464–482): increments the counter
only when it is still zero; URL pushes are deduplicated. -/
def stepThumbnail (acc : ImageSources × List String) (it : FeedItem) :
    ImageSources × List String :=
  if mediaTruthy it.mediaThumbnail then
    let s :=
      if acc.1.mediaThumbnail = 0 then
        { acc.1 with mediaThumbnail := acc.1.mediaThumbnail + 1 }
      else acc.1
    match it.mediaThumbnail with
    | some (.obj u) =>
      if truthy u && ¬ acc.2.contains (getStr u) then (s, acc.2 ++ [getStr u])
      else (s, acc.2)
    | some (.str str) =>
      match matchUrlAttr str.toList with
      | some cap =>
        if ¬ acc.2.contains (String.mk cap) then (s, acc.2 ++ [String.mk cap])
        else (s, acc.2)
      | none => (s, acc.2)
    | none => (s, acc.2)
  else acc

/-- Per-item enclosure check (lines 484–490): deduplicated push. -/
def stepEnclosure (acc : ImageSources × List String) (it : FeedItem) :
    ImageSources × List String :=
  if encImage it then
    let s := { acc.1 with enclosure := acc.1.enclosure + 1 }
    match it.enclosure with
    | some e =>
      if truthy e.url && ¬ acc.2.contains (getStr e.url) then (s, acc.2 ++ [getStr e.url])
      else (s, acc.2)
    | none => (s, acc.2)
  else acc

/-- Per-item inline `<img` check (lines 492–500) on the
`contentEncoded || content || description || ''` chain: deduplicated push of
the first `src` capture. -/
def stepImgTag (acc : ImageSources × List String) (it : FeedItem) :
    ImageSources × List String :=
  let content := pickContent it
  if containsStr content "<img" then
    let s := { acc.1 with imgTag := acc.1.imgTag + 1 }
    match matchImgSrc content.toList with
    | some cap =>
      if String.mk cap ≠ "" && ¬ acc.2.contains (String.mk cap) then
        (s, acc.2 ++ [String.mk cap])
      else (s, acc.2)
    | none => (s, acc.2)
  else acc

/-- Per-item Open Graph check (lines 502–505): count only. -/
def stepOpenGraph (acc : ImageSources × List String) (it : FeedItem) :
    ImageSources × List String :=
  let content := pickContent it
  if containsStr content "og:image" || containsStr content "property=\"og:image\"" then
    ({ acc.1 with openGraph := acc.1.openGraph + 1 }, acc.2)
  else acc

/-- One iteration of the per-item loop, in source order. -/
def imageStep (acc : ImageSources × List String) (it : FeedItem) :
    ImageSources × List String :=
  stepOpenGraph (stepImgTag (stepEnclosure (stepThumbnail (stepMediaContent acc it) it) it) it) it

/-- The full image source analysis: raw-text pre-pass, then the item loop. -/
def analyzeImages (xml : List Char) (items : List FeedItem) :
    ImageSources × List String :=
  items.foldl imageStep (rawThumbPrepass xml)

/-! ### Field discovery, feed type, report assembly -/

/-- `availableFields` (lines 204–239): ordered-set accumulation, sorted at the
end (`Array.from(availableFields).sort()`). -/
def availableFields (feed : ParsedFeed) : List String :=
  let fs : List String := []
  let fs := if truthy feed.title then insertOnce fs "title" else fs
  let fs := if truthy feed.link then insertOnce fs "link" else fs
  let fs := if truthy feed.description then insertOnce fs "description" else fs
  let fs := if feed.categories.length > 0 then insertOnce fs "categories" else fs
  let fs :=
    match feed.items with
    | [] => fs
    | firstItem :: _ =>
      let fs := if truthy firstItem.title then insertOnce fs "title" else fs
      let fs := if truthy firstItem.link then insertOnce fs "link" else fs
      let fs := if truthy firstItem.content then insertOnce fs "content" else fs
      let fs := if truthy firstItem.contentSnippet then insertOnce fs "contentSnippet" else fs
      let fs := if truthy firstItem.description then insertOnce fs "description" else fs
      let fs := if firstItem.categories.length > 0 then insertOnce fs "categories" else fs
      let fs := if truthy firstItem.pubDate then insertOnce fs "pubDate" else fs
      let fs := if truthy firstItem.creator then insertOnce fs "creator" else fs
      let fs := if truthy firstItem.author then insertOnce fs "author" else fs
      let fs := if truthy firstItem.guid then insertOnce fs "guid" else fs
      let fs := if truthy firstItem.contentEncoded then insertOnce fs "content:encoded" else fs
      let fs := if mediaTruthy firstItem.mediaContent then insertOnce fs "media:content" else fs
      let fs := if mediaTruthy firstItem.mediaThumbnail then insertOnce fs "media:thumbnail" else fs
      let fs := if firstItem.enclosure.isSome then insertOnce fs "enclosure" else fs
      let fs := if truthy firstItem.image then insertOnce fs "image" else fs
      fs
  fs.insertionSort (· ≤ ·)

/-- `version=["']([^"']+)["']` at the head of `l` (for the feed-type pattern). -/
def tryVersionAt (l : List Char) : Option (List Char) :=
  if isPrefixCI "version=".toList l then
    match l.drop 8 with
    | [] => none
    | q :: r2 =>
      if q = Char.ofNat 34 ∨ q = Char.ofNat 39 then
        let cap := r2.takeWhile fun c => c ≠ Char.ofNat 34 ∧ c ≠ Char.ofNat 39
        if cap.length ≥ 1 ∧ cap.length < r2.length then some cap else none
      else none
  else none

/-- Backtracking over the greedy `[^>]*` of `/<rss[^>]*version=.../i`. -/
def tryVersionLengths (r : List Char) : Nat → Option (List Char)
  | 0 => tryVersionAt r
  | k + 1 =>
    match tryVersionAt (r.drop (k + 1)) with
    | some cap => some cap
    | none => tryVersionLengths r k

/-- `/<rss[^>]*version=["']([^"']+)["']/i` at the head of `l`. -/
def tryRssVersionHere (l : List Char) : Option (List Char) :=
  if isPrefixCI "<rss".toList l then
    let r := l.drop 4
    tryVersionLengths r (r.takeWhile (· ≠ '>')).length
  else none

/-- First match of `/<rss[^>]*version=["']([^"']+)["']/i` anywhere in `l`. -/
def matchRssVersion : List Char → Option (List Char)
  | [] => none
  | c :: rest =>
    match tryRssVersionHere (c :: rest) with
    | some cap => some cap
    | none => matchRssVersion rest

/-- Feed-type detection (lines 339–352). -/
def feedTypeOf (xml : List Char) : String :=
  if containsL xml "<rss".toList then
    match matchRssVersion xml with
    | some cap =>
      let v := String.mk cap
      if v = "2.0" then "RSS 2.0" else s!"RSS {v}"
    | none => "RSS 2.0"
  else if containsL xml "<feed".toList && containsL xml atomNs.toList then "Atom"
  else if containsL xml "<rdf:RDF".toList then "RDF"
  else "Unknown"

/-- The success-path analysis record (lines 518–532).  `none` in
`duplicateGuids` / `missingFields` / `imageResolutions` models an omitted
(`undefined`) JSON field. -/
structure Report where
  isValid : Bool
  title : String
  availableFields : List String
  hasFeaturedImage : Bool
  contentType : CType
  lastUpdate : Option String
  itemCount : Nat
  feedType : String
  postFrequency : Option String
  duplicateGuids : Option (List String)
  missingFields : Option (List String)
  imageSources : ImageSources
  imageResolutions : Option (List String)
deriving Repr, DecidableEq

/-- Report assembly on the success path (after validation passed and the
external parser produced `feed`): lines 204–532 of the source. -/
def buildReport (pd : String → Option Int) (fmt : Int → String)
    (xmlContent : String) (feed : ParsedFeed) : Report :=
  let xml := xmlContent.toList
  let imgs := analyzeImages xml feed.items
  let dups := duplicateGuids feed.items
  let miss := missingFields feed.items
  let resolutions := imgs.2.take 2
  { isValid := true
    title := if truthy feed.title then getStr feed.title else "Untitled Feed"
    availableFields := availableFields feed
    hasFeaturedImage := hasFeaturedImage feed.items
    contentType := contentTypeOf feed.items
    lastUpdate := lastUpdate pd fmt feed.items
    itemCount := feed.items.length
    feedType := feedTypeOf xml
    postFrequency := postFrequency pd feed.items
    duplicateGuids := if dups.length > 0 then some dups else none
    missingFields := if miss.length > 0 then some miss else none
    imageSources := imgs.1
    imageResolutions := if resolutions.length > 0 then some resolutions else none }

/-! ### Spec-side definitions (for refinement claims)

These follow the specification's words, to be compared with the
source-derived definitions above. -/

/-- Modelled from the spec (§4.7): the label for an average inter-post
interval of `d` days, stated with the spec's explicit half-open intervals
(`d < 0.1`; `0.1 ≤ d < 1`; `1 ≤ d < 7`; `7 ≤ d < 30`; `d ≥ 30`). -/
def specFreqLabel (d : ℚ) : String :=
  if d < 1 / 10 then "Multiple posts per day"
  else if 1 / 10 ≤ d ∧ d < 1 then
    let perDay := jsRound (1 / d)
    if perDay = 1 then "1 post per day" else s!"{perDay} posts per day"
  else if 1 ≤ d ∧ d < 7 then
    let perWeek := jsRound (7 / d)
    if perWeek = 1 then "1 post per week" else s!"{perWeek} posts per week"
  else if 7 ≤ d ∧ d < 30 then
    let perMonth := jsRound (30 / d)
    if perMonth = 1 then "1 post per month" else s!"{perMonth} posts per month"
  else "Less than 1 post per month"

/-- Modelled from the spec (§4.7): sort the parsable dates ascending, take the
span in days between earliest and latest divided by `(count - 1)`, and label;
fewer than two parsable dates yield `null`. -/
def specPostFrequency (dates : List Int) : Option String :=
  if dates.length < 2 then none
  else
    let sorted := sortDates dates
    let earliest := sorted.head?.getD 0
    let latest := sorted.getLast?.getD 0
    let d : ℚ := ((latest - earliest : Int) : ℚ) / (msPerDay : ℚ) / ((dates.length : ℚ) - 1)
    some (specFreqLabel d)

/-! ### Concrete fixtures for counterexamples and witnesses -/

/-- A date parser that parses nothing (e.g. all pubDates are garbage strings,
which `new Date` maps to `NaN`). -/
def pdNone : String → Option Int := fun _ => none

/-- A trivial date formatter. -/
def fmt0 : Int → String := fun n => toString n

/-- A date parser for five timestamps spaced exactly one day
(86 400 000 ms) apart. -/
def pdDaily : String → Option Int := fun s =>
  if s = "p0" then some 0
  else if s = "p1" then some 86400000
  else if s = "p2" then some 172800000
  else if s = "p3" then some 259200000
  else if s = "p4" then some 345600000
  else none

/-- An item carrying only a pubDate string. -/
def itP (s : String) : FeedItem := { pubDate := some s }

/-- Five items with pubDates spaced exactly one day apart. -/
def fiveDailyItems : List FeedItem := [itP "p0", itP "p1", itP "p2", itP "p3", itP "p4"]

/-- A raw document containing two identical raw `media:thumbnail` tags. -/
def xmlDupThumb : String := "<media:thumbnail url=\"a\"><media:thumbnail url=\"a\">"

/-- A feed item whose only image signal is an `<img` tag in its `content`
field. -/
def imgContentItem : FeedItem := { content := some "<img src=\"u\">" }

/-- A raw document that passes validation (the `<item>` and `media:thumbnail`
markers sit inside a CDATA section of the channel title, so a real XML parser
sees no items) yet makes the raw-text `media:thumbnail` pre-pass find a URL. -/
def xmlCdataThumb : String :=
  "<?xml version=\"1.0\"?><rss version=\"2.0\"><channel><title><![CDATA[<item><media:thumbnail url=\"a\">]]></title><link>h</link></channel></rss>"

/-- A minimal valid RSS 2.0 document with one item. -/
def xmlMinimalValid : String :=
  "<rss version=\"2.0\"><channel><title>t</title><link></link><item><title>i</title></item></channel></rss>"

/-- An item whose stripped description has exactly 500 characters. -/
def item500 : FeedItem := { description := some (String.mk (List.replicate 500 'a')) }

/-- An item whose stripped description has exactly 501 characters. -/
def item501 : FeedItem := { description := some (String.mk (List.replicate 501 'a')) }

/-- The running-maximum fold step of `latestDate`, on a bare date. -/
def dmaxStep (acc : Option Int) (d : Int) : Option Int :=
  match acc with
  | none => some d
  | some m => if d > m then some d else some m

/-- The running maximum of a date list (what `latestDate` computes on the
collected dates). -/
def dmax (l : List Int) : Option Int := l.foldl dmaxStep none

/-! ### Candidate URL sequences (per-item extraction, in source scan order) -/

/-- The URL the media:content check extracts for one item (lines 452–462). -/
def mediaContentCand (it : FeedItem) : List String :=
  if mediaTruthy it.mediaContent then
    match it.mediaContent with
    | some (.obj u) => if truthy u then [getStr u] else []
    | some (.str s) =>
      match matchUrlAttr s.toList with
      | some cap => [String.mk cap]
      | none => []
    | none => []
  else []

/-- The URL the media:thumbnail check extracts for one item (lines 464–482). -/
def thumbCand (it : FeedItem) : List String :=
  if mediaTruthy it.mediaThumbnail then
    match it.mediaThumbnail with
    | some (.obj u) => if truthy u then [getStr u] else []
    | some (.str s) =>
      match matchUrlAttr s.toList with
      | some cap => [String.mk cap]
      | none => []
    | none => []
  else []

/-- The URL the enclosure check extracts for one item (lines 484–490). -/
def encCand (it : FeedItem) : List String :=
  if encImage it then
    match it.enclosure with
    | some e => if truthy e.url then [getStr e.url] else []
    | none => []
  else []

/-- The URL the inline `<img` check extracts for one item (lines 492–500). -/
def imgCand (it : FeedItem) : List String :=
  if containsStr (pickContent it) "<img" then
    match matchImgSrc (pickContent it).toList with
    | some cap => if String.mk cap ≠ "" then [String.mk cap] else []
    | none => []
  else []

/-- All URLs one loop iteration encounters for an item, in source scan order. -/
def itemUrlCandidates (it : FeedItem) : List String :=
  mediaContentCand it ++ thumbCand it ++ encCand it ++ imgCand it

/-! ## Theorems -/

/-- C1: For every input document, the validation outcome returned by
`validateFeedXML` satisfies `isValid == (the violations list is empty)`; this
holds on every path, including the internal-error path (modelled by
`validateFeedXMLCatch`) where the error is captured as a violation. -/
theorem validateFeedXML_isValid_iff_errors_nil :
    (∀ xml : String,
      (validateFeedXML xml).isValid = true ↔ (validateFeedXML xml).errors = []) ∧
    (∀ (errs : List String) (msg : String),
      (validateFeedXMLCatch errs msg).isValid = true ↔
        (validateFeedXMLCatch errs msg).errors = []) := by
  constructor
  · intro xml
    unfold validateFeedXML
    split
    · simp
    · simp [List.length_eq_zero]
  · intro errs msg
    simp [validateFeedXMLCatch]

/-- C2: For every document whose text, after trimming, does not start with an
XML declaration, an `<rss` tag, or a `<feed` tag, `validateFeedXML` returns
`isValid == false` with exactly one violation, and no further validation rules
are applied (the outcome is exactly the single gate violation). -/
theorem validateFeedXML_gate_single_violation (xml : String)
    (h : ("<?xml".toList.isPrefixOf (trimL xml.toList) ||
          "<rss".toList.isPrefixOf (trimL xml.toList) ||
          "<feed".toList.isPrefixOf (trimL xml.toList)) = false) :
    validateFeedXML xml =
      { isValid := false, errors := ["Feed does not appear to be valid XML"] } ∧
    (validateFeedXML xml).errors.length = 1 := by
  have hv : validateFeedXML xml =
      { isValid := false, errors := ["Feed does not appear to be valid XML"] } := by
    unfold validateFeedXML
    have hc : ¬ (("<?xml".toList.isPrefixOf (trimL xml.toList) ||
        "<rss".toList.isPrefixOf (trimL xml.toList) ||
        "<feed".toList.isPrefixOf (trimL xml.toList)) = true) := by
      simp only [h]
      exact Bool.false_ne_true
    rw [if_pos hc]
  exact ⟨hv, by rw [hv]; rfl⟩

/-- Witness for C2 at the concrete document `"<html></html>"`. -/
theorem validateFeedXML_gate_single_violation_witness :
    validateFeedXML "<html></html>" =
      { isValid := false, errors := ["Feed does not appear to be valid XML"] } :=
  (validateFeedXML_gate_single_violation "<html></html>" (by decide)).1

/-! ### Temporal analyzer lemmas -/

/-- The source's else-if cascade realises exactly the spec's half-open
interval mapping. -/
theorem freqLabel_eq_specFreqLabel (q : ℚ) : freqLabel q = specFreqLabel q := by
  rcases lt_or_le q ((10 : ℚ)⁻¹) with h1 | h1
  · simp [freqLabel, specFreqLabel, h1]
  · have h1i : (10 : ℚ)⁻¹ ≤ q := h1
    rcases lt_or_le q 1 with h2 | h2
    · simp [freqLabel, specFreqLabel, not_lt.mpr h1, h1i, h2]
    · rcases lt_or_le q 7 with h3 | h3
      · have h1' : ¬ q < (10 : ℚ)⁻¹ := not_lt.mpr h1
        simp [freqLabel, specFreqLabel, h1', not_lt.mpr h2, h2, h3]
      · rcases lt_or_le q 30 with h4 | h4
        · have h1' : ¬ q < (10 : ℚ)⁻¹ := not_lt.mpr h1
          have h2' : ¬ q < 1 := by linarith
          simp [freqLabel, specFreqLabel, h1', h2', not_lt.mpr h3, h3, h4, h2]
        · have h1' : ¬ q < (10 : ℚ)⁻¹ := not_lt.mpr h1
          have h2' : ¬ q < 1 := by linarith
          have h3' : ¬ q < 7 := by linarith
          simp [freqLabel, specFreqLabel, h1', h2', h3', not_lt.mpr h4, h4]

theorem sortDates_sorted (l : List Int) : (sortDates l).Sorted (· ≤ ·) :=
  List.sorted_insertionSort _ l

theorem sortDates_perm (l : List Int) : (sortDates l).Perm l :=
  List.perm_insertionSort _ l

/-- Sorting is invariant under permutation of the input. -/
theorem sortDates_perm_eq {l l' : List Int} (h : l.Perm l') :
    sortDates l = sortDates l' :=
  List.eq_of_perm_of_sorted ((sortDates_perm l).trans (h.trans (sortDates_perm l').symm))
    (sortDates_sorted l) (sortDates_sorted l')

/-- The source's `postFrequency` equals the spec's description applied to the
collected parsable dates (shared helper). -/
theorem postFrequency_eq_spec_aux (pd : String → Option Int) (items : List FeedItem) :
    postFrequency pd items = specPostFrequency (collectDates pd items) := by
  unfold postFrequency specPostFrequency
  by_cases h1 : items.length > 1
  · rw [if_pos h1]
    by_cases h2 : (collectDates pd items).length > 1
    · rw [if_pos h2, if_neg (by omega)]
      simp only [freqLabel_eq_specFreqLabel]
    · rw [if_neg h2, if_pos (by omega)]
  · rw [if_neg h1, if_pos ?hlt]
    case hlt =>
      have := List.length_filterMap_le (itemDate pd) items
      unfold collectDates
      omega

/-- `specPostFrequency` is permutation-invariant. -/
theorem specPostFrequency_perm {l l' : List Int} (h : l.Perm l') :
    specPostFrequency l = specPostFrequency l' := by
  unfold specPostFrequency
  rw [h.length_eq, sortDates_perm_eq h]

/-- Shared computation: five items, dates spaced exactly one day apart, give
the label `"7 posts per week"` (the average interval is exactly 1 day). -/
theorem postFrequency_daily_aux (pd : String → Option Int)
    (items : List FeedItem) (t : Int)
    (hlen : items.length = 5)
    (hdates : collectDates pd items =
      [t, t + 86400000, t + 2 * 86400000, t + 3 * 86400000, t + 4 * 86400000]) :
    postFrequency pd items = some "7 posts per week" := by
  unfold postFrequency
  rw [if_pos (by omega), hdates, if_pos (by simp)]
  have hsorted : sortDates
      [t, t + 86400000, t + 2 * 86400000, t + 3 * 86400000, t + 4 * 86400000] =
      [t, t + 86400000, t + 2 * 86400000, t + 3 * 86400000, t + 4 * 86400000] :=
    List.eq_of_perm_of_sorted (sortDates_perm _) (sortDates_sorted _)
      (by simp [List.sorted_cons])
  rw [hsorted]
  simp [msPerDay]
  norm_num [freqLabel, jsRound]
  rfl

/-- `dmaxStep` on a present accumulator is `max`. -/
theorem dmaxStep_some (m d : Int) : dmaxStep (some m) d = some (max m d) := by
  show (if d > m then some d else some m) = some (max m d)
  rcases le_total m d with h | h
  · rw [max_eq_right h]
    split_ifs with hgt
    · rfl
    · have hdm : d = m := by omega
      rw [hdm]
  · rw [max_eq_left h]
    split_ifs with hgt
    · have hdm : d = m := by omega
      rw [hdm]
    · rfl

/-- The maximum fold, started at `some m`, computes `foldl max m`. -/
theorem dmax_foldl_some (l : List Int) (m : Int) :
    l.foldl dmaxStep (some m) = some (l.foldl max m) := by
  induction l generalizing m with
  | nil => rfl
  | cons d rest ih => rw [List.foldl_cons, List.foldl_cons, dmaxStep_some, ih]

theorem dmax_cons (d : Int) (l : List Int) : dmax (d :: l) = some (l.foldl max d) := by
  unfold dmax
  rw [List.foldl_cons]
  show l.foldl dmaxStep (dmaxStep none d) = _
  rw [show dmaxStep none d = some d from rfl, dmax_foldl_some]

/-- `foldl max` bounds and membership. -/
theorem foldl_max_spec (l : List Int) (a : Int) :
    a ≤ l.foldl max a ∧ (l.foldl max a = a ∨ l.foldl max a ∈ l) ∧
      ∀ x ∈ l, x ≤ l.foldl max a := by
  induction l generalizing a with
  | nil => simp
  | cons b rest ih =>
    obtain ⟨ih1, ih2, ih3⟩ := ih (max a b)
    refine ⟨le_trans (le_max_left a b) ih1, ?_, ?_⟩
    · rcases ih2 with h | h
      · rcases max_choice a b with hm | hm
        · exact Or.inl (by rw [List.foldl_cons, h, hm])
        · exact Or.inr (by rw [List.foldl_cons, h, hm]; exact List.mem_cons_self b rest)
      · exact Or.inr (List.mem_cons_of_mem b h)
    · intro x hx
      rcases List.mem_cons.mp hx with rfl | hx
      · exact le_trans (le_max_right a x) ih1
      · exact ih3 x hx

theorem dmax_eq_none_iff (l : List Int) : dmax l = none ↔ l = [] := by
  cases l with
  | nil => simp [dmax]
  | cons d rest => simp [dmax_cons]

/-- The maximum fold is permutation-invariant. -/
theorem dmax_perm {l l' : List Int} (h : l.Perm l') : dmax l = dmax l' := by
  cases hl : l with
  | nil =>
    subst hl
    rw [(dmax_eq_none_iff l').mpr h.nil_eq.symm]
    rfl
  | cons d rest =>
    subst hl
    have hl' : l' ≠ [] := by
      intro hnil
      subst hnil
      exact absurd h.symm.nil_eq (by simp)
    obtain ⟨d', rest', rfl⟩ := List.exists_cons_of_ne_nil hl'
    rw [dmax_cons, dmax_cons]
    obtain ⟨hle, hmem, hub⟩ := foldl_max_spec rest d
    obtain ⟨hle', hmem', hub'⟩ := foldl_max_spec rest' d'
    have m_mem : rest.foldl max d ∈ d :: rest := by
      rcases hmem with he | he
      · rw [he]; exact List.mem_cons_self _ _
      · exact List.mem_cons_of_mem _ he
    have m'_mem : rest'.foldl max d' ∈ d' :: rest' := by
      rcases hmem' with he | he
      · rw [he]; exact List.mem_cons_self _ _
      · exact List.mem_cons_of_mem _ he
    have hub2 : ∀ x ∈ d :: rest, x ≤ rest.foldl max d := by
      intro x hx
      rcases List.mem_cons.mp hx with rfl | hx
      · exact hle
      · exact hub x hx
    have hub2' : ∀ x ∈ d' :: rest', x ≤ rest'.foldl max d' := by
      intro x hx
      rcases List.mem_cons.mp hx with rfl | hx
      · exact hle'
      · exact hub' x hx
    have h1 : rest.foldl max d ≤ rest'.foldl max d' := hub2' _ (h.mem_iff.mp m_mem)
    have h2 : rest'.foldl max d' ≤ rest.foldl max d := hub2 _ (h.mem_iff.mpr m'_mem)
    rw [le_antisymm h1 h2]

/-- `latestDate` is the maximum fold over the collected dates. -/
theorem latestDate_eq_dmax (pd : String → Option Int) (items : List FeedItem) :
    latestDate pd items = dmax (collectDates pd items) := by
  unfold latestDate dmax collectDates
  suffices haux : ∀ acc : Option Int,
      items.foldl
        (fun acc it =>
          match itemDate pd it with
          | some d =>
            match acc with
            | none => some d
            | some m => if d > m then some d else some m
          | none => acc)
        acc = (items.filterMap (itemDate pd)).foldl dmaxStep acc from haux none
  intro acc
  induction items generalizing acc with
  | nil => rfl
  | cons it rest ih =>
    cases hd : itemDate pd it with
    | none => simp only [List.foldl_cons, hd, List.filterMap_cons, ih]
    | some d =>
      simp only [List.foldl_cons, hd, List.filterMap_cons, ih]
      rfl

/-- C3 (counterexample): for five items with pubDates spaced exactly 1 day
apart, the computed `postFrequency` is `"7 posts per week"`, not
`"1 post per day"`: the average interval is exactly 1 day, the `d < 1` branch
is not taken, and the weekly branch rounds `7 / 1` to `7`. -/
theorem postFrequency_daily_spacing_cex :
    postFrequency pdDaily fiveDailyItems = some "7 posts per week" ∧
    postFrequency pdDaily fiveDailyItems ≠ some "1 post per day" := by
  have h := postFrequency_daily_aux pdDaily fiveDailyItems 0 (by rfl) (by decide)
  refine ⟨h, ?_⟩
  rw [h]
  decide

/-- C3 (amended): for a parsed feed of exactly five items whose publication
timestamps are spaced exactly 1 day apart (all parsable), the computed
`postFrequency` equals `"7 posts per week"`. -/
theorem postFrequency_daily_spacing_weekly (pd : String → Option Int)
    (items : List FeedItem) (t : Int)
    (hlen : items.length = 5)
    (hdates : collectDates pd items =
      [t, t + 86400000, t + 2 * 86400000, t + 3 * 86400000, t + 4 * 86400000]) :
    postFrequency pd items = some "7 posts per week" :=
  postFrequency_daily_aux pd items t hlen hdates

/-- Witness for C3's amended theorem on concrete items and parser. -/
theorem postFrequency_daily_spacing_weekly_witness :
    postFrequency pdDaily fiveDailyItems = some "7 posts per week" :=
  postFrequency_daily_spacing_weekly pdDaily fiveDailyItems 0 (by rfl) (by decide)

/-- C4: `postFrequency` is computed exactly as the spec describes: sort the
parsable dates ascending, take span-in-days between earliest and latest over
`(count − 1)` as the average `d`, and label by the spec's intervals
(`specPostFrequency`/`specFreqLabel`); with fewer than two parsable dates the
result is `null`. -/
theorem postFrequency_matches_spec (pd : String → Option Int) (items : List FeedItem) :
    postFrequency pd items = specPostFrequency (collectDates pd items) :=
  postFrequency_eq_spec_aux pd items

/-- C5 (counterexample): permuting the item list can change `lastUpdate`:
with two unparsable pubDates the fallback returns the *first* item's raw
string, which depends on the order. -/
theorem lastUpdate_order_dependent_cex :
    ([itP "x", itP "y"] : List FeedItem).Perm [itP "y", itP "x"] ∧
    lastUpdate pdNone fmt0 [itP "x", itP "y"] ≠
      lastUpdate pdNone fmt0 [itP "y", itP "x"] := by
  constructor
  · exact List.Perm.swap _ _ _
  · decide

/-- C5 (amended): permuting the item list never changes `postFrequency`, and
never changes `lastUpdate` provided at least one item carries a parsable
timestamp (the unparsable-fallback path is the only order-dependent one). -/
theorem temporal_order_independence (pd : String → Option Int) (fmt : Int → String)
    (items items' : List FeedItem) (hp : items.Perm items') :
    postFrequency pd items = postFrequency pd items' ∧
    ((∃ it ∈ items, (itemDate pd it).isSome) →
      lastUpdate pd fmt items = lastUpdate pd fmt items') := by
  constructor
  · rw [postFrequency_eq_spec_aux, postFrequency_eq_spec_aux]
    exact specPostFrequency_perm (hp.filterMap (itemDate pd))
  · rintro ⟨it, hmem, hsome⟩
    obtain ⟨d, hd⟩ := Option.isSome_iff_exists.mp hsome
    have hmem' : d ∈ collectDates pd items :=
      List.mem_filterMap.mpr ⟨it, hmem, hd⟩
    have hne : collectDates pd items ≠ [] := List.ne_nil_of_mem hmem'
    have hdm : dmax (collectDates pd items) ≠ none :=
      fun h => hne ((dmax_eq_none_iff _).mp h)
    obtain ⟨m, hm⟩ := Option.ne_none_iff_exists'.mp hdm
    have hcp : (collectDates pd items).Perm (collectDates pd items') :=
      hp.filterMap (itemDate pd)
    have hm' : dmax (collectDates pd items') = some m := by
      rw [← dmax_perm hcp]
      exact hm
    have hitems : items ≠ [] := List.ne_nil_of_mem hmem
    have hitems' : items' ≠ [] := by
      intro hnil
      rw [hnil] at hp
      exact hitems hp.symm.nil_eq.symm
    obtain ⟨a, t, rfl⟩ := List.exists_cons_of_ne_nil hitems
    obtain ⟨a', t', rfl⟩ := List.exists_cons_of_ne_nil hitems'
    show (match latestDate pd (a :: t) with
      | some d => some (fmt d)
      | none => if truthy a.pubDate then some (getStr a.pubDate) else none) =
      (match latestDate pd (a' :: t') with
      | some d => some (fmt d)
      | none => if truthy a'.pubDate then some (getStr a'.pubDate) else none)
    rw [latestDate_eq_dmax, latestDate_eq_dmax, hm, hm']

/-- Witness for C5's amended theorem on a concrete swap of two parsable items. -/
theorem temporal_order_independence_witness :
    postFrequency pdDaily [itP "p0", itP "p1"] =
      postFrequency pdDaily [itP "p1", itP "p0"] ∧
    lastUpdate pdDaily fmt0 [itP "p0", itP "p1"] =
      lastUpdate pdDaily fmt0 [itP "p1", itP "p0"] := by
  have h := temporal_order_independence pdDaily fmt0 [itP "p0", itP "p1"]
    [itP "p1", itP "p0"] (by decide)
  exact ⟨h.1, h.2 ⟨itP "p0", by decide, by decide⟩⟩

/-! ### Image source analyzer lemmas -/

theorem stepMediaContent_fst (acc : ImageSources × List String) (it : FeedItem) :
    (stepMediaContent acc it).1 =
      if mediaTruthy it.mediaContent then
        { acc.1 with mediaContent := acc.1.mediaContent + 1 }
      else acc.1 := by
  simp only [stepMediaContent]
  split_ifs <;>
    first
      | rfl
      | (split <;> first
          | rfl
          | (split_ifs <;> rfl)
          | (split <;> first | rfl | (split_ifs <;> rfl)))

theorem stepThumbnail_fst (acc : ImageSources × List String) (it : FeedItem) :
    (stepThumbnail acc it).1 =
      if mediaTruthy it.mediaThumbnail then
        (if acc.1.mediaThumbnail = 0 then
          { acc.1 with mediaThumbnail := acc.1.mediaThumbnail + 1 }
        else acc.1)
      else acc.1 := by
  simp only [stepThumbnail]
  split_ifs <;>
    first
      | rfl
      | (split <;> first
          | rfl
          | (split_ifs <;> rfl)
          | (split <;> first | rfl | (split_ifs <;> rfl)))

theorem stepEnclosure_fst (acc : ImageSources × List String) (it : FeedItem) :
    (stepEnclosure acc it).1 =
      if encImage it then { acc.1 with enclosure := acc.1.enclosure + 1 } else acc.1 := by
  simp only [stepEnclosure]
  split_ifs <;>
    first
      | rfl
      | (split <;> first
          | rfl
          | (split_ifs <;> rfl))

theorem stepImgTag_fst (acc : ImageSources × List String) (it : FeedItem) :
    (stepImgTag acc it).1 =
      if containsStr (pickContent it) "<img" then
        { acc.1 with imgTag := acc.1.imgTag + 1 }
      else acc.1 := by
  simp only [stepImgTag]
  split_ifs <;>
    first
      | rfl
      | (split <;> first
          | rfl
          | (split_ifs <;> rfl))

theorem stepOpenGraph_fst (acc : ImageSources × List String) (it : FeedItem) :
    (stepOpenGraph acc it).1 =
      if containsStr (pickContent it) "og:image" ||
          containsStr (pickContent it) "property=\"og:image\"" then
        { acc.1 with openGraph := acc.1.openGraph + 1 }
      else acc.1 := by
  simp only [stepOpenGraph]
  split_ifs <;> rfl

/-- The composed per-item step changes the `mediaThumbnail` counter exactly as
the guarded increment prescribes. -/
theorem imageStep_fst_mT (acc : ImageSources × List String) (it : FeedItem) :
    ((imageStep acc it).1).mediaThumbnail =
      if mediaTruthy it.mediaThumbnail then
        (if acc.1.mediaThumbnail = 0 then 1 else acc.1.mediaThumbnail)
      else acc.1.mediaThumbnail := by
  have h5 : ∀ a : ImageSources × List String,
      ((stepMediaContent a it).1).mediaThumbnail = a.1.mediaThumbnail := by
    intro a; rw [stepMediaContent_fst]; split_ifs <;> rfl
  have h4 : ∀ a : ImageSources × List String,
      ((stepThumbnail a it).1).mediaThumbnail =
        if mediaTruthy it.mediaThumbnail then
          (if a.1.mediaThumbnail = 0 then 1 else a.1.mediaThumbnail)
        else a.1.mediaThumbnail := by
    intro a; rw [stepThumbnail_fst]; split_ifs <;> simp [*]
  have h3 : ∀ a : ImageSources × List String,
      ((stepEnclosure a it).1).mediaThumbnail = a.1.mediaThumbnail := by
    intro a; rw [stepEnclosure_fst]; split_ifs <;> rfl
  have h2 : ∀ a : ImageSources × List String,
      ((stepImgTag a it).1).mediaThumbnail = a.1.mediaThumbnail := by
    intro a; rw [stepImgTag_fst]; split_ifs <;> rfl
  have h1 : ∀ a : ImageSources × List String,
      ((stepOpenGraph a it).1).mediaThumbnail = a.1.mediaThumbnail := by
    intro a; rw [stepOpenGraph_fst]; split_ifs <;> rfl
  unfold imageStep
  rw [h1, h2, h3, h4, h5]

/-- The item loop leaves a positive seeded counter unchanged, and raises a
zero counter to 1 exactly when some item exposes the parsed extension. -/
theorem foldl_imageStep_mT (items : List FeedItem) (acc : ImageSources × List String) :
    ((items.foldl imageStep acc).1).mediaThumbnail =
      if acc.1.mediaThumbnail = 0 then
        (if items.any (fun it => mediaTruthy it.mediaThumbnail) then 1 else 0)
      else acc.1.mediaThumbnail := by
  induction items generalizing acc with
  | nil =>
    by_cases h0 : acc.1.mediaThumbnail = 0 <;> simp [h0]
  | cons it rest ih =>
    rw [List.foldl_cons, ih, imageStep_fst_mT]
    by_cases h : mediaTruthy it.mediaThumbnail = true
    · by_cases h0 : acc.1.mediaThumbnail = 0 <;> simp [h, h0, List.any_cons]
    · simp only [Bool.not_eq_true] at h
      simp [h, List.any_cons]

theorem rawThumbPrepass_fst_mT (xml : List Char) :
    ((rawThumbPrepass xml).1).mediaThumbnail =
      (matchAllOpenTag "<media:thumbnail".toList (xml.length + 1) xml).length := by
  simp only [rawThumbPrepass]
  split_ifs with h
  · rfl
  · simp only [not_lt, Nat.le_zero] at h
    exact h.symm

/-- Appending a fresh element preserves `Nodup`. -/
theorem nodup_push (l : List String) (u : String) (hl : l.Nodup) (hu : u ∉ l) :
    (l ++ [u]).Nodup := by
  simp [List.nodup_append, hl, hu]

theorem stepMediaContent_snd_none (acc : ImageSources × List String) (it : FeedItem)
    (h : it.mediaContent = none) : (stepMediaContent acc it).2 = acc.2 := by
  simp [stepMediaContent, h, mediaTruthy]

theorem stepOpenGraph_snd (acc : ImageSources × List String) (it : FeedItem) :
    (stepOpenGraph acc it).2 = acc.2 := by
  simp only [stepOpenGraph]
  split_ifs <;> rfl

theorem stepThumbnail_snd_nodup (acc : ImageSources × List String) (it : FeedItem)
    (hacc : acc.2.Nodup) : ((stepThumbnail acc it).2).Nodup := by
  cases hmt : it.mediaThumbnail with
  | none => simpa [stepThumbnail, hmt, mediaTruthy] using hacc
  | some v =>
    cases v with
    | obj u =>
      simp only [stepThumbnail, hmt, mediaTruthy]
      split_ifs with hc <;>
        first
          | exact hacc
          | exact nodup_push _ _ hacc (by simp_all)
    | str st =>
      simp only [stepThumbnail, hmt, mediaTruthy]
      cases hu : matchUrlAttr st.toList with
      | none =>
        simp only [hu]
        split_ifs <;> exact hacc
      | some cap =>
        simp only [hu]
        split_ifs <;>
          first
            | exact hacc
            | exact nodup_push _ _ hacc (by simp_all)

theorem stepEnclosure_snd_nodup (acc : ImageSources × List String) (it : FeedItem)
    (hacc : acc.2.Nodup) : ((stepEnclosure acc it).2).Nodup := by
  simp only [stepEnclosure]
  split_ifs with h
  · cases he : it.enclosure with
    | none => exact hacc
    | some e =>
      simp only [he]
      split_ifs <;>
        first
          | exact hacc
          | exact nodup_push _ _ hacc (by simp_all)
  · exact hacc

theorem stepImgTag_snd_nodup (acc : ImageSources × List String) (it : FeedItem)
    (hacc : acc.2.Nodup) : ((stepImgTag acc it).2).Nodup := by
  simp only [stepImgTag]
  split_ifs with h
  · cases hm : matchImgSrc (pickContent it).toList with
    | none => exact hacc
    | some cap =>
      simp only [hm]
      split_ifs <;>
        first
          | exact hacc
          | exact nodup_push _ _ hacc (by simp_all)
  · exact hacc

/-- When the item carries no media:content, one loop iteration preserves
`Nodup` of the URL list (every other push is deduplicated). -/
theorem imageStep_nodup (acc : ImageSources × List String) (it : FeedItem)
    (hacc : acc.2.Nodup) (hmc : it.mediaContent = none) :
    ((imageStep acc it).2).Nodup := by
  unfold imageStep
  rw [stepOpenGraph_snd]
  apply stepImgTag_snd_nodup
  apply stepEnclosure_snd_nodup
  apply stepThumbnail_snd_nodup
  rw [stepMediaContent_snd_none _ _ hmc]
  exact hacc

theorem foldl_imageStep_nodup (items : List FeedItem) (acc : ImageSources × List String)
    (hacc : acc.2.Nodup) (hmc : ∀ it ∈ items, it.mediaContent = none) :
    ((items.foldl imageStep acc).2).Nodup := by
  induction items generalizing acc with
  | nil => exact hacc
  | cons it rest ih =>
    rw [List.foldl_cons]
    exact ih (imageStep acc it)
      (imageStep_nodup acc it hacc (hmc it (List.mem_cons_self it rest)))
      (fun x hx => hmc x (List.mem_cons_of_mem it hx))

/-- C7: the raw-text media:thumbnail pre-pass runs exactly once before
per-item scanning and seeds the `mediaThumbnail` counter with the number of
raw-text occurrences; the counter is not double-incremented when a parsed item
also exposes the extension, and the per-item pass contributes (at most one
increment) only when the raw-text pre-pass found zero occurrences. -/
theorem mediaThumbnail_prepass_no_double (xml : String) (items : List FeedItem) :
    (analyzeImages xml.toList items).1.mediaThumbnail =
      if 0 < (matchAllOpenTag "<media:thumbnail".toList (xml.toList.length + 1) xml.toList).length then
        (matchAllOpenTag "<media:thumbnail".toList (xml.toList.length + 1) xml.toList).length
      else if items.any fun it => mediaTruthy it.mediaThumbnail then 1 else 0 := by
  unfold analyzeImages
  rw [foldl_imageStep_mT, rawThumbPrepass_fst_mT]
  by_cases h : (matchAllOpenTag "<media:thumbnail".toList (xml.toList.length + 1) xml.toList).length = 0
  · rw [if_pos h]
    have hnl : ¬ 0 < (matchAllOpenTag "<media:thumbnail".toList
        (xml.toList.length + 1) xml.toList).length := by omega
    rw [if_neg hnl]
  · rw [if_neg h, if_pos (Nat.pos_of_ne_zero h)]

theorem stepThumbnail_snd_eq (acc : ImageSources × List String) (it : FeedItem) :
    (stepThumbnail acc it).2 = (thumbCand it).foldl insertOnce acc.2 := by
  cases hmt : it.mediaThumbnail with
  | none => simp [stepThumbnail, thumbCand, hmt, mediaTruthy]
  | some v =>
    cases v with
    | obj u =>
      simp only [stepThumbnail, thumbCand, hmt, mediaTruthy]
      by_cases hu : truthy u = true <;>
        by_cases hm : getStr u ∈ acc.2 <;>
          simp [hu, hm, insertOnce]
    | str st =>
      simp only [stepThumbnail, thumbCand, hmt, mediaTruthy]
      by_cases hst : (st = "")
      · simp [hst]
      · cases hmu : matchUrlAttr st.toList with
        | none => simp [hst, hmu]
        | some cap =>
          by_cases hm : String.mk cap ∈ acc.2 <;>
            simp [hst, hmu, hm, insertOnce]

theorem stepEnclosure_snd_eq (acc : ImageSources × List String) (it : FeedItem) :
    (stepEnclosure acc it).2 = (encCand it).foldl insertOnce acc.2 := by
  simp only [stepEnclosure, encCand]
  by_cases he : encImage it = true
  · simp only [he, if_true]
    cases hen : it.enclosure with
    | none => simp
    | some e =>
      by_cases hu : truthy e.url = true <;>
        by_cases hm : getStr e.url ∈ acc.2 <;>
          simp [hu, hm, insertOnce]
  · simp [he]

theorem stepImgTag_snd_eq (acc : ImageSources × List String) (it : FeedItem) :
    (stepImgTag acc it).2 = (imgCand it).foldl insertOnce acc.2 := by
  simp only [stepImgTag, imgCand]
  by_cases hc : containsStr (pickContent it) "<img" = true
  · simp only [hc, if_true]
    cases hm : matchImgSrc (pickContent it).toList with
    | none => simp
    | some cap =>
      by_cases hne : String.mk cap = ""
      · simp [hne]
      · by_cases hmem : String.mk cap ∈ acc.2 <;>
          simp [hne, hmem, insertOnce]
  · simp [hc]

theorem mediaContentCand_none (it : FeedItem) (h : it.mediaContent = none) :
    mediaContentCand it = [] := by
  simp [mediaContentCand, h, mediaTruthy]

/-- One loop iteration, on an item without media:content, appends exactly the
item's candidate URLs via ordered-set insertion. -/
theorem imageStep_snd_eq (acc : ImageSources × List String) (it : FeedItem)
    (hmc : it.mediaContent = none) :
    (imageStep acc it).2 = (itemUrlCandidates it).foldl insertOnce acc.2 := by
  unfold imageStep itemUrlCandidates
  rw [stepOpenGraph_snd, stepImgTag_snd_eq, stepEnclosure_snd_eq, stepThumbnail_snd_eq,
    stepMediaContent_snd_none _ _ hmc, mediaContentCand_none it hmc]
  rw [List.foldl_append, List.foldl_append, List.foldl_append]
  rfl

/-- The item loop, when no item carries media:content, produces exactly the
ordered-set fold of the concatenated candidate URLs. -/
theorem foldl_imageStep_urls (items : List FeedItem) (acc : ImageSources × List String)
    (hmc : ∀ it ∈ items, it.mediaContent = none) :
    ((items.foldl imageStep acc).2) =
      (items.flatMap itemUrlCandidates).foldl insertOnce acc.2 := by
  induction items generalizing acc with
  | nil => rfl
  | cons it rest ih =>
    rw [List.foldl_cons, ih (imageStep acc it) (fun x hx => hmc x (List.mem_cons_of_mem it hx)),
      imageStep_snd_eq acc it (hmc it (List.mem_cons_self it rest)),
      List.flatMap_cons, List.foldl_append]

/-- C6 (amended): the sample image URL list in the report has length at most
2 always; and when the raw media:thumbnail pre-pass found no URLs and no item
carries a media:content value (those are the only two non-deduplicated
pushes), the list is exactly the first-occurrence deduplication of the
per-item candidate URLs in first-encountered order, capped at 2 — in
particular it then contains no repeated URL string. -/
theorem imageResolutions_cap_and_dedup :
    (∀ (pd : String → Option Int) (fmt : Int → String) (xml : String) (feed : ParsedFeed),
      ((buildReport pd fmt xml feed).imageResolutions.getD []).length ≤ 2) ∧
    (∀ (pd : String → Option Int) (fmt : Int → String) (xml : String) (feed : ParsedFeed),
      (rawThumbPrepass xml.toList).2 = [] →
      (∀ it ∈ feed.items, it.mediaContent = none) →
      ((buildReport pd fmt xml feed).imageResolutions.getD []) =
        (firstSeen (feed.items.flatMap itemUrlCandidates)).take 2) ∧
    (∀ (pd : String → Option Int) (fmt : Int → String) (xml : String) (feed : ParsedFeed),
      (rawThumbPrepass xml.toList).2 = [] →
      (∀ it ∈ feed.items, it.mediaContent = none) →
      ((buildReport pd fmt xml feed).imageResolutions.getD []).Nodup) := by
  refine ⟨?_, ?_, ?_⟩
  · intro pd fmt xml feed
    simp only [buildReport]
    split_ifs with h
    · simp [List.length_take]
    · simp
  · intro pd fmt xml feed hpre hmc
    have hurls : (analyzeImages xml.toList feed.items).2 =
        firstSeen (feed.items.flatMap itemUrlCandidates) := by
      unfold analyzeImages firstSeen
      rw [foldl_imageStep_urls feed.items (rawThumbPrepass xml.toList) hmc, hpre]
    simp only [buildReport]
    split_ifs with h
    · simp only [Option.getD_some]
      rw [hurls]
    · have h0 : (analyzeImages xml.toList feed.items).2.length = 0 := by
        rw [List.length_take] at h
        omega
      have hnil : firstSeen (feed.items.flatMap itemUrlCandidates) = [] := by
        rw [← hurls]
        exact List.length_eq_zero.mp h0
      simp [hnil]
  · intro pd fmt xml feed hpre hmc
    have hall : ((analyzeImages xml.toList feed.items).2).Nodup := by
      unfold analyzeImages
      exact foldl_imageStep_nodup feed.items _ (by rw [hpre]; exact List.nodup_nil) hmc
    have htake : (((analyzeImages xml.toList feed.items).2).take 2).Nodup :=
      hall.sublist (List.take_sublist 2 _)
    simp only [buildReport]
    split_ifs with h
    · simpa using htake
    · simp

/-- Witness for C6's amended theorem on a concrete document and feed. -/
theorem imageResolutions_cap_and_dedup_witness :
    ((buildReport pdNone fmt0 "" { items := [imgContentItem] }).imageResolutions.getD []).length ≤ 2 ∧
    ((buildReport pdNone fmt0 "" { items := [imgContentItem] }).imageResolutions.getD []) =
      (firstSeen (([imgContentItem] : List FeedItem).flatMap itemUrlCandidates)).take 2 ∧
    ((buildReport pdNone fmt0 "" { items := [imgContentItem] }).imageResolutions.getD []).Nodup :=
  ⟨imageResolutions_cap_and_dedup.1 pdNone fmt0 "" { items := [imgContentItem] },
   imageResolutions_cap_and_dedup.2.1 pdNone fmt0 "" { items := [imgContentItem] }
     (by decide) (by decide),
   imageResolutions_cap_and_dedup.2.2 pdNone fmt0 "" { items := [imgContentItem] }
     (by decide) (by decide)⟩

/-- C6 (counterexample): a raw document with two identical raw
`media:thumbnail` tags yields `imageResolutions = ["a", "a"]` — a repeated URL
string, because the raw pre-pass pushes without deduplication. -/
theorem imageResolutions_dup_cex :
    (buildReport pdNone fmt0 xmlDupThumb { items := [] }).imageResolutions =
      some ["a", "a"] ∧
    ¬ ((buildReport pdNone fmt0 xmlDupThumb { items := [] }).imageResolutions.getD []).Nodup := by
  constructor
  · decide
  · decide

/-- C9: there is a parsed feed whose only image signal is an `<img` occurrence
in an item's `content` field, for which the report counts
`imageSources.imgTag ≥ 1` yet `hasFeaturedImage = false`: the featured-image
pass inspects only `description` and the full-content extension, never
`content`. -/
theorem imgTag_without_featured_flag :
    ∃ (xml : String) (feed : ParsedFeed) (pd : String → Option Int) (fmt : Int → String),
      (∀ it ∈ feed.items, it.description = none ∧ it.contentEncoded = none ∧
        it.mediaContent = none ∧ it.mediaThumbnail = none ∧ it.enclosure = none ∧
        it.image = none) ∧
      1 ≤ (buildReport pd fmt xml feed).imageSources.imgTag ∧
      (buildReport pd fmt xml feed).hasFeaturedImage = false := by
  refine ⟨"", { items := [imgContentItem] }, pdNone, fmt0, ?_, ?_, ?_⟩ <;> decide

set_option maxRecDepth 10000 in
/-- C10 (counterexample): a raw document that passes validation (the `<item>`
and `media:thumbnail` markers are inside a CDATA title, so a real parser sees
no items) still populates `imageResolutions` through the raw-text pre-pass,
so the field is *not* omitted for an empty-item feed. -/
theorem emptyFeed_report_cex :
    (validateFeedXML xmlCdataThumb).isValid = true ∧
    ({ items := [] } : ParsedFeed).items = [] ∧
    (buildReport pdNone fmt0 xmlCdataThumb { items := [] }).imageResolutions ≠ none := by
  refine ⟨by decide, rfl, by decide⟩

/-- C10 (amended): for every raw document that passes validation and parses to
a feed with no items, the report has `isValid = true`,
`contentType = unknown`, `lastUpdate = null`, `postFrequency = null`,
`itemCount = 0`, `hasFeaturedImage = false`, and `duplicateGuids` and
`missingFields` omitted; `imageResolutions` equals the (≤ 2-capped) URL list
of the raw media:thumbnail pre-pass and is omitted exactly when that list is
empty. -/
theorem emptyFeed_report_fields (pd : String → Option Int) (fmt : Int → String)
    (xml : String) (feed : ParsedFeed)
    (hvalid : (validateFeedXML xml).isValid = true)
    (hempty : feed.items = []) :
    (buildReport pd fmt xml feed).isValid = true ∧
    (buildReport pd fmt xml feed).contentType = CType.unknown ∧
    (buildReport pd fmt xml feed).lastUpdate = none ∧
    (buildReport pd fmt xml feed).postFrequency = none ∧
    (buildReport pd fmt xml feed).itemCount = 0 ∧
    (buildReport pd fmt xml feed).hasFeaturedImage = false ∧
    (buildReport pd fmt xml feed).duplicateGuids = none ∧
    (buildReport pd fmt xml feed).missingFields = none ∧
    (buildReport pd fmt xml feed).imageResolutions =
      (if 0 < ((rawThumbPrepass xml.toList).2.take 2).length then
        some ((rawThumbPrepass xml.toList).2.take 2)
      else none) := by
  obtain ⟨ftitle, flink, fdesc, fcats, fitems⟩ := feed
  replace hempty : fitems = [] := hempty
  subst hempty
  exact ⟨rfl, rfl, rfl, rfl, rfl, rfl, rfl, rfl, rfl⟩

/-- Witness for C10's amended theorem on a minimal valid document. -/
theorem emptyFeed_report_fields_witness :
    (buildReport pdNone fmt0 xmlMinimalValid { items := [] }).postFrequency = none ∧
    (buildReport pdNone fmt0 xmlMinimalValid { items := [] }).imageResolutions = none := by
  have h := emptyFeed_report_fields pdNone fmt0 xmlMinimalValid { items := [] }
    (by decide) rfl
  refine ⟨h.2.2.2.1, ?_⟩
  rw [h.2.2.2.2.2.2.2.2]
  decide

/-- C8: the content classification uses the first item's content chosen by
priority (`pickContent`: full-content extension, then content, then
description, defaulting to empty), strips all markup tags, and maps the
remaining character length exactly: > 500 → full, 0 < length ≤ 500 → excerpt,
0 → unknown. -/
theorem contentType_length_mapping (it : FeedItem) (rest : List FeedItem) (L : Nat)
    (hL : L = (stripTags (pickContent it).toList).length) :
    (500 < L → contentTypeOf (it :: rest) = CType.full) ∧
    (0 < L ∧ L ≤ 500 → contentTypeOf (it :: rest) = CType.excerpt) ∧
    (L = 0 → contentTypeOf (it :: rest) = CType.unknown) := by
  subst hL
  simp only [contentTypeOf]
  refine ⟨fun h => ?_, fun h => ?_, fun h => ?_⟩
  · rw [if_pos (by omega)]
  · rw [if_neg (by omega), if_pos (by omega)]
  · rw [if_neg (by omega), if_neg (by omega)]

set_option maxRecDepth 100000 in
/-- Witness for C8 at the exact boundary: stripped length 500 classifies as
excerpt, 501 as full. -/
theorem contentType_length_mapping_witness :
    contentTypeOf [item500] = CType.excerpt ∧ contentTypeOf [item501] = CType.full := by
  refine ⟨(contentType_length_mapping item500 [] 500 (by decide)).2.1 (by omega),
          (contentType_length_mapping item501 [] 501 (by decide)).1 (by omega)⟩


end FeedAnalyzer
